import Mathlib

/-!
Verification of `AssetsBrowserMaterialMoveHandler.moveFile`
(src/renderer/editor/components/assets-browser/files/move/material.ts).

The TypeScript method is embedded shallowly:

```
public async moveFile(from: string, to: string): Promise<void> {
    const materials = this._editor.scene!.materials;
    const newEditorPath = to.replace(join(this._editor.assetsBrowser.assetsDirectory, "/"), "");

    materials.forEach((mat) => {
        const editorPath = mat.metadata?.editorPath;
        if (!editorPath) { return; }
        const path = join(this._editor.assetsBrowser.assetsDirectory, editorPath);
        if (path === from) { mat.metadata.editorPath = newEditorPath; }
    });

    try {
        const json = await readJSON(from);
        if (json.metadata) { json.metadata.editorPath = newEditorPath; }
        await writeJSON(from, json, { spaces: "\t", encoding: "utf-8" });
    } catch (e) { /* Catch silently. */ }
}
```

External library functions used by the method are embedded from their
documented semantics:
  * Node's POSIX `path.join` (concatenate the non-empty arguments with `/`
    and normalize: drop empty and `.` components, resolve `..`, keep a
    single leading and trailing separator);
  * JavaScript's `String.prototype.replace` with a string pattern, which
    replaces only the FIRST occurrence of the pattern;
  * `fs-extra`'s `readJSON` / `writeJSON`, modelled as an environment-chosen
    `Except` outcome for the read and a success flag for the write.
Strings are processed as their underlying character lists.
-/

/-- JavaScript `s.replace(pat, "")` with a string `pat`: remove the first
occurrence of `pat` in `s`, scanning from the left; `s` unchanged when `pat`
does not occur. -/
def replaceFirstChars (pat : List Char) : List Char → List Char
  | [] => []
  | c :: rest =>
    if pat.isPrefixOf (c :: rest) then (c :: rest).drop pat.length
    else c :: replaceFirstChars pat rest

/-- JavaScript `s.replace(pat, "")` on strings. -/
def jsReplaceOnce (s pat : String) : String := ⟨replaceFirstChars pat.data s.data⟩

/-- Split a character list on the `/` separator, keeping empty segments
(Node's `normalizeString` skips them while scanning). -/
def splitOnSlashAux : List Char → List Char → List (List Char)
  | [], acc => [acc.reverse]
  | c :: rest, acc =>
    if c = '/' then acc.reverse :: splitOnSlashAux rest []
    else splitOnSlashAux rest (c :: acc)

/-- One component step of Node's `path.normalizeString`: skip empty and `.`
components; on `..` pop the last kept component, or keep a `..` chain when
the path is relative (`allowAbove`), or drop it at the root of an absolute
path; keep every other component. -/
def normSegStep (allowAbove : Bool) (res : List (List Char)) (seg : List Char) :
    List (List Char) :=
  if seg = [] ∨ seg = ['.'] then res
  else if seg = ['.', '.'] then
    match res.getLast? with
    | none => if allowAbove then [['.', '.']] else []
    | some last =>
      if last = ['.', '.'] then (if allowAbove then res ++ [seg] else res)
      else res.dropLast
  else res ++ [seg]

/-- Node POSIX `path.normalize` on character lists. -/
def normalizeChars (l : List Char) : List Char :=
  if l = [] then ['.']
  else
    let isAbs := l.head? == some '/'
    let trailing := l.getLast? == some '/'
    let segs := (splitOnSlashAux l []).foldl (normSegStep (!isAbs)) []
    let body := List.intercalate ['/'] segs
    if body = [] then
      if isAbs then ['/'] else if trailing then ['.', '/'] else ['.']
    else
      (if isAbs then '/' :: body else body) ++ (if trailing then ['/'] else [])

/-- Node POSIX `path.join` on two character lists: concatenate the non-empty
arguments with `/` and normalize (`.` when both are empty). -/
def pathJoinChars (a b : List Char) : List Char :=
  if a = [] ∧ b = [] then ['.']
  else if a = [] then normalizeChars b
  else if b = [] then normalizeChars a
  else normalizeChars (a ++ '/' :: b)

/-- Node POSIX `path.join` on strings. -/
def pathJoin (a b : String) : String := ⟨pathJoinChars a.data b.data⟩

/-- Node POSIX `path.normalize` on strings. -/
def normalizePath (s : String) : String := ⟨normalizeChars s.data⟩

/-- The `metadata` object carried by an in-memory material or by the on-disk
document: an optional `editorPath` string plus the remaining fields, which
`moveFile` never touches, abstracted as a key/value list. -/
structure MatMetadata where
  editorPath : Option String
  rest : List (String × String)
  deriving DecidableEq

/-- An in-memory material reference (`this._editor.scene!.materials` entry):
only its optional `metadata` object is relevant to `moveFile`. -/
structure Material where
  metadata : Option MatMetadata
  deriving DecidableEq

/-- The on-disk JSON document read from `from`: an optional `metadata`
section plus all other fields, which `moveFile` never touches. -/
structure DiskDoc where
  metadata : Option MatMetadata
  rest : List (String × String)
  deriving DecidableEq

/-- The `editorPath` reachable through `mat.metadata?.editorPath`. -/
def editorPathOf (mat : Material) : Option String :=
  match mat.metadata with
  | none => none
  | some md => md.editorPath

/-- Computation of `newEditorPath = to.replace(join(assetsDirectory, "/"), "")`
from the source: remove the first occurrence of the joined assets directory
plus separator from `to`. -/
def newEditorPathOf (dir t : String) : String := jsReplaceOnce t (pathJoin dir "/")

/-- The body of the `forEach` callback: skip a material whose
`metadata?.editorPath` is absent or falsy (the empty string), otherwise
overwrite `editorPath` with `newPath` when `join(assetsDirectory, editorPath)`
equals `from`. -/
def updateMaterial (dir f newPath : String) (mat : Material) : Material :=
  match mat.metadata with
  | none => mat
  | some md =>
    match md.editorPath with
    | none => mat
    | some ep =>
      if ep = "" then mat
      else if pathJoin dir ep = f then
        { mat with metadata := some { md with editorPath := some newPath } }
      else mat

/-- The guard under which the `forEach` callback rewrites a material:
`editorPath` present and truthy, and resolving it against the assets
directory yields `from`. -/
def matchesFrom (dir f : String) (mat : Material) : Bool :=
  match editorPathOf mat with
  | none => false
  | some ep => !(ep == "") && (pathJoin dir ep == f)

/-- Patch step `if (json.metadata) json.metadata.editorPath = newEditorPath`
from the source: set the document's `metadata.editorPath` when a `metadata`
section exists, otherwise leave the document untouched. -/
def patchDoc (newPath : String) (doc : DiskDoc) : DiskDoc :=
  match doc.metadata with
  | some m => { doc with metadata := some { m with editorPath := some newPath } }
  | none => doc

/-- A completed `writeJSON(path, doc, { spaces, encoding })` call. -/
structure WriteOp where
  path : String
  doc : DiskDoc
  spaces : String
  encoding : String
  deriving DecidableEq

/-- The `try` block without its `catch`: read the document at `from`
(outcome chosen by the environment), patch it, and write it back to `from`
with tab indentation and utf-8 encoding; a failing read or write propagates
as an `Except.error`. Returns the completed write, if any. -/
def diskPatchBody (f newPath : String) (read : Except String DiskDoc) (writeOk : Bool) :
    Except String (Option WriteOp) :=
  match read with
  | Except.error e => Except.error e
  | Except.ok json =>
    let json := patchDoc newPath json
    if writeOk then Except.ok (some { path := f, doc := json, spaces := "\t", encoding := "utf-8" })
    else Except.error "EIO"

/-- The observable result of one `moveFile` call: the mutated material list
and the completed disk write, if any. -/
structure MoveResult where
  materials : List Material
  written : Option WriteOp
  deriving DecidableEq

/-- `moveFile(from, to)` with the `try`/`catch` made explicit: the in-memory
update always happens; any error of the disk phase is caught silently, so the
method itself never produces an error. `read` and `writeOk` are the
environment's outcomes for `readJSON` and `writeJSON`. -/
def moveFileE (dir f t : String) (mats : List Material) (read : Except String DiskDoc)
    (writeOk : Bool) : Except String MoveResult :=
  let newPath := newEditorPathOf dir t
  let mats' := mats.map (updateMaterial dir f newPath)
  match diskPatchBody f newPath read writeOk with
  | Except.error _ => Except.ok { materials := mats', written := none }
  | Except.ok w => Except.ok { materials := mats', written := w }

/-- The result of `moveFile(from, to)` (total, since every disk error is
caught). -/
def moveFile (dir f t : String) (mats : List Material) (read : Except String DiskDoc)
    (writeOk : Bool) : MoveResult :=
  let newPath := newEditorPathOf dir t
  { materials := mats.map (updateMaterial dir f newPath)
    written :=
      match diskPatchBody f newPath read writeOk with
      | Except.error _ => none
      | Except.ok w => w }

/-- Program points of `moveFile`, at statement granularity: `entry` is the
start of the body, `beforeRead` the point where the in-memory `forEach` has
finished and the `await readJSON(from)` is about to be issued, `afterRead`
the point where the read has completed, `done` the end of the method (also
reached through the `catch`). -/
inductive PC where
  | entry
  | beforeRead
  | afterRead
  | done
  deriving DecidableEq

/-- A configuration of the running `moveFile` body: the program point, the
in-memory material list, the local `json` variable, and the completed disk
write, if any. -/
structure ExecState where
  pc : PC
  materials : List Material
  json : Option DiskDoc
  written : Option WriteOp
  deriving DecidableEq

/-- One statement-level step of `moveFile`: from `entry`, the synchronous
part (computing `newEditorPath` and the `forEach` mutation) runs to
completion, reaching the point where the read is issued; from `beforeRead`,
the read completes (a rejection jumps to `done` through the `catch`); from
`afterRead`, the document is patched and written back (a rejected write is
likewise caught). `done` is absorbing. -/
def moveStep (dir f t : String) (read : Except String DiskDoc) (writeOk : Bool)
    (s : ExecState) : ExecState :=
  match s.pc with
  | PC.entry =>
    { s with
      pc := PC.beforeRead
      materials := s.materials.map (updateMaterial dir f (newEditorPathOf dir t)) }
  | PC.beforeRead =>
    match read with
    | Except.error _ => { s with pc := PC.done }
    | Except.ok doc => { s with pc := PC.afterRead, json := some doc }
  | PC.afterRead =>
    match s.json with
    | none => { s with pc := PC.done }
    | some doc =>
      let doc := patchDoc (newEditorPathOf dir t) doc
      if writeOk then
        { s with
          pc := PC.done
          json := some doc
          written := some { path := f, doc := doc, spaces := "\t", encoding := "utf-8" } }
      else { s with pc := PC.done, json := some doc }
  | PC.done => s

/-- The combined state `moveFile` acts on when runs are chained: the
in-memory material list and the content of the document at `from` (`none`
when the file is missing or unreadable). Reads succeed exactly when content
is present and writes succeed; a completed write replaces the content. -/
structure SysState where
  materials : List Material
  disk : Option DiskDoc
  deriving DecidableEq

/-- One `moveFile(from, to)` run over a `SysState`. -/
def runMove (dir f t : String) (s : SysState) : SysState :=
  let read : Except String DiskDoc :=
    match s.disk with
    | none => Except.error "ENOENT"
    | some d => Except.ok d
  let r := moveFile dir f t s.materials read true
  { materials := r.materials
    disk :=
      match r.written with
      | none => s.disk
      | some op => some op.doc }

example : pathJoin "/a" "/" = "/a/" := by decide
example : pathJoin "/a" "o" = "/a/o" := by decide
example : pathJoin "/a" "/x" = "/a/x" := by decide
example : newEditorPathOf "/a" "/a/n" = "n" := by decide
example : newEditorPathOf "/a" "/b/a/c" = "/bc" := by decide
example : newEditorPathOf "/a" "/a//x" = "/x" := by decide
example : pathJoin "/proj/assets" "mats/old.material" = "/proj/assets/mats/old.material" := by decide

/-- Removing a leading copy of `pat` is exact: JavaScript's first-occurrence
`replace` finds the occurrence at position 0. -/
theorem replaceFirstChars_append_self (pat r : List Char) :
    replaceFirstChars pat (pat ++ r) = r := by
  cases pat with
  | nil =>
    cases r with
    | nil => rfl
    | cons c cs => simp [replaceFirstChars]
  | cons p ps =>
    have hpre : (p :: ps).isPrefixOf ((p :: ps) ++ r) = true := by
      rw [List.isPrefixOf_iff_prefix]
      exact List.prefix_append _ _
    rw [List.cons_append, replaceFirstChars]
    rw [← List.cons_append, if_pos hpre, List.drop_left]

/-- When `pat` occurs nowhere in `s`, first-occurrence `replace` leaves `s`
unchanged. -/
theorem replaceFirstChars_of_no_occurrence (pat : List Char) :
    ∀ s : List Char, ¬ pat <:+: s → replaceFirstChars pat s = s
  | [], _ => rfl
  | c :: rest, h => by
    have hp : pat.isPrefixOf (c :: rest) = false := by
      rw [Bool.eq_false_iff]
      intro hb
      rw [List.isPrefixOf_iff_prefix] at hb
      exact h hb.isInfix
    rw [replaceFirstChars, if_neg (by simp [hp]),
      replaceFirstChars_of_no_occurrence pat rest (fun hi => h (List.infix_cons hi))]

/-- Stripping behaviour of `newEditorPath`: when `to` is the joined assets
root followed by a root-relative remainder, the computed value is exactly
that remainder. -/
theorem newEditorPathOf_append (dir rel : String) :
    newEditorPathOf dir (pathJoin dir "/" ++ rel) = rel := by
  rcases rel with ⟨l⟩
  rcases h : pathJoin dir "/" with ⟨pl⟩
  show jsReplaceOnce _ _ = _
  rw [h]
  show String.mk (replaceFirstChars pl (String.mk pl ++ String.mk l).data) = String.mk l
  show String.mk (replaceFirstChars pl (pl ++ l)) = String.mk l
  rw [replaceFirstChars_append_self]

/-- A material satisfying the `forEach` guard gets its `editorPath`
overwritten with the new path. -/
theorem updateMaterial_of_matches (dir f p : String) (mat : Material)
    (h : matchesFrom dir f mat = true) :
    editorPathOf (updateMaterial dir f p mat) = some p := by
  rcases mat with ⟨md⟩
  rcases md with _ | ⟨ep, rest⟩
  · simp [matchesFrom, editorPathOf] at h
  · rcases ep with _ | ep
    · simp [matchesFrom, editorPathOf] at h
    · simp only [matchesFrom, editorPathOf, Bool.and_eq_true, Bool.not_eq_true',
        beq_eq_false_iff_ne, beq_iff_eq, ne_eq] at h
      simp [updateMaterial, editorPathOf, h.1, h.2]

/-- A material outside the `forEach` guard is returned unchanged. -/
theorem updateMaterial_of_not_matches (dir f p : String) (mat : Material)
    (h : editorPathOf mat = none ∨ ∀ ep, editorPathOf mat = some ep → pathJoin dir ep ≠ f) :
    updateMaterial dir f p mat = mat := by
  rcases mat with ⟨md⟩
  rcases md with _ | ⟨ep, rest⟩
  · rfl
  · rcases ep with _ | ep
    · rfl
    · rcases h with h | h
      · simp [editorPathOf] at h
      · have hne : pathJoin dir ep ≠ f := h ep (by simp [editorPathOf])
        by_cases he : ep = ""
        · simp [updateMaterial, he]
        · simp [updateMaterial, he, hne]

/-- C1: every in-memory material reference whose `editorPath`, resolved
against the assets directory, equals `from` has its `editorPath` overwritten
by `moveFile(from, to)` with the asset-root-relative form of `to` (here `to`
is the joined assets root followed by the relative remainder `rel`); the
update is positional, so it reaches every matching reference in the
collection, not just the first. -/
theorem moveFile_updates_matching_reference (dir f rel : String) (mats : List Material)
    (read : Except String DiskDoc) (writeOk : Bool) (i : Nat) (hi : i < mats.length)
    (hmatch : matchesFrom dir f (mats.get ⟨i, hi⟩) = true) :
    ∃ hj : i < (moveFile dir f (pathJoin dir "/" ++ rel) mats read writeOk).materials.length,
      editorPathOf
          ((moveFile dir f (pathJoin dir "/" ++ rel) mats read writeOk).materials.get ⟨i, hj⟩)
        = some rel := by
  have hlen :
      (moveFile dir f (pathJoin dir "/" ++ rel) mats read writeOk).materials.length
        = mats.length := by
    simp [moveFile]
  refine ⟨by rw [hlen]; exact hi, ?_⟩
  have hget :
      (moveFile dir f (pathJoin dir "/" ++ rel) mats read writeOk).materials.get
          ⟨i, by rw [hlen]; exact hi⟩
        = updateMaterial dir f (newEditorPathOf dir (pathJoin dir "/" ++ rel))
            (mats.get ⟨i, hi⟩) := by
    simp [moveFile]
  rw [hget, newEditorPathOf_append, updateMaterial_of_matches dir f rel _ hmatch]

/-- C1 witness: with assets root `/a`, a reference whose `editorPath` `o`
resolves to `from = /a/o` is rewritten to `n`, the root-relative form of
`to = /a/n`. -/
theorem moveFile_updates_matching_reference_witness :
    ∃ hj : 0 < (moveFile "/a" "/a/o" (pathJoin "/a" "/" ++ "n")
        [{ metadata := some { editorPath := some "o", rest := [] } }]
        (Except.error "e") true).materials.length,
      editorPathOf ((moveFile "/a" "/a/o" (pathJoin "/a" "/" ++ "n")
          [{ metadata := some { editorPath := some "o", rest := [] } }]
          (Except.error "e") true).materials.get ⟨0, hj⟩)
        = some "n" :=
  moveFile_updates_matching_reference "/a" "/a/o" "n"
    [{ metadata := some { editorPath := some "o", rest := [] } }]
    (Except.error "e") true 0 (by decide) (by decide)

/-- C2: an in-memory material reference with no `editorPath`, or whose
`editorPath` resolves against the assets directory to a path other than
`from`, is left unchanged by `moveFile(from, to)`. -/
theorem moveFile_preserves_nonmatching_reference (dir f t : String) (mats : List Material)
    (read : Except String DiskDoc) (writeOk : Bool) (i : Nat) (hi : i < mats.length)
    (h : editorPathOf (mats.get ⟨i, hi⟩) = none ∨
         ∀ ep, editorPathOf (mats.get ⟨i, hi⟩) = some ep → pathJoin dir ep ≠ f) :
    ∃ hj : i < (moveFile dir f t mats read writeOk).materials.length,
      (moveFile dir f t mats read writeOk).materials.get ⟨i, hj⟩ = mats.get ⟨i, hi⟩ := by
  have hlen : (moveFile dir f t mats read writeOk).materials.length = mats.length := by
    simp [moveFile]
  refine ⟨by rw [hlen]; exact hi, ?_⟩
  have hget :
      (moveFile dir f t mats read writeOk).materials.get ⟨i, by rw [hlen]; exact hi⟩
        = updateMaterial dir f (newEditorPathOf dir t) (mats.get ⟨i, hi⟩) := by
    simp [moveFile]
  rw [hget, updateMaterial_of_not_matches dir f _ _ h]

/-- C2 witness: a reference whose `editorPath` `z` resolves to `/a/z`,
different from `from = /a/o`, survives `moveFile` unchanged. -/
theorem moveFile_preserves_nonmatching_reference_witness :
    ∃ hj : 0 < (moveFile "/a" "/a/o" "/a/n"
        [{ metadata := some { editorPath := some "z", rest := [] } }]
        (Except.error "e") true).materials.length,
      (moveFile "/a" "/a/o" "/a/n"
          [{ metadata := some { editorPath := some "z", rest := [] } }]
          (Except.error "e") true).materials.get ⟨0, hj⟩
        = ([{ metadata := some { editorPath := some "z", rest := [] } }] : List Material).get
            ⟨0, by decide⟩ :=
  moveFile_preserves_nonmatching_reference "/a" "/a/o" "/a/n"
    [{ metadata := some { editorPath := some "z", rest := [] } }]
    (Except.error "e") true 0 (by decide)
    (Or.inr (fun ep hep => by
      simp only [List.get, editorPathOf] at hep
      cases hep
      decide))

/-- C9: a reference whose `editorPath` is present but empty is skipped by
the scan exactly like a reference with no `editorPath` (the JavaScript guard
`!editorPath` treats the empty string as falsy): it is left unchanged for
every `(from, to)`. -/
theorem moveFile_skips_empty_editorPath (dir f t : String) (mats : List Material)
    (read : Except String DiskDoc) (writeOk : Bool) (i : Nat) (hi : i < mats.length)
    (md : MatMetadata) (hmd : (mats.get ⟨i, hi⟩).metadata = some md)
    (hep : md.editorPath = some "") :
    ∃ hj : i < (moveFile dir f t mats read writeOk).materials.length,
      (moveFile dir f t mats read writeOk).materials.get ⟨i, hj⟩ = mats.get ⟨i, hi⟩ := by
  have hlen : (moveFile dir f t mats read writeOk).materials.length = mats.length := by
    simp [moveFile]
  refine ⟨by rw [hlen]; exact hi, ?_⟩
  have hget :
      (moveFile dir f t mats read writeOk).materials.get ⟨i, by rw [hlen]; exact hi⟩
        = updateMaterial dir f (newEditorPathOf dir t) (mats.get ⟨i, hi⟩) := by
    simp [moveFile]
  rw [hget]
  rcases hm : mats.get ⟨i, hi⟩ with ⟨md'⟩
  rw [hm] at hmd
  simp only at hmd
  subst hmd
  simp [updateMaterial, hep]

/-- C9 witness: a reference carrying `editorPath = ""` is unchanged, even
though the empty path joined to the assets root equals `from = /a`. -/
theorem moveFile_skips_empty_editorPath_witness :
    ∃ hj : 0 < (moveFile "/a" "/a" "/a/n"
        [{ metadata := some { editorPath := some "", rest := [] } }]
        (Except.error "e") true).materials.length,
      (moveFile "/a" "/a" "/a/n"
          [{ metadata := some { editorPath := some "", rest := [] } }]
          (Except.error "e") true).materials.get ⟨0, hj⟩
        = ([{ metadata := some { editorPath := some "", rest := [] } }] : List Material).get
            ⟨0, by decide⟩ :=
  moveFile_skips_empty_editorPath "/a" "/a" "/a/n"
    [{ metadata := some { editorPath := some "", rest := [] } }]
    (Except.error "e") true 0 (by decide) { editorPath := some "", rest := [] } rfl rfl

/-- C3: for every input and every outcome of the on-disk read and write
(missing file, malformed content, I/O failure on either side), `moveFile`
returns success — the explicit `try`/`catch` model `moveFileE` never
produces an error — and the in-memory update is applied regardless of the
disk outcome. -/
theorem moveFile_never_errors (dir f t : String) (mats : List Material)
    (read : Except String DiskDoc) (writeOk : Bool) :
    moveFileE dir f t mats read writeOk
        = Except.ok (moveFile dir f t mats read writeOk) ∧
      (moveFile dir f t mats read writeOk).materials
        = mats.map (updateMaterial dir f (newEditorPathOf dir t)) := by
  cases read with
  | error e => cases writeOk <;> simp [moveFileE, moveFile, diskPatchBody]
  | ok doc => cases writeOk <;> simp [moveFileE, moveFile, diskPatchBody]

/-- C4 counterexample: with a document that parses successfully but has no
`metadata` section, a write to disk DOES occur — `writeJSON` sits outside
the `if (json.metadata)` guard, so the unmodified document is written back.
The claim that no write occurs is false. -/
theorem moveFile_write_occurs_without_metadata_section :
    (moveFile "/a" "/a/o" "/a/n" []
        (Except.ok { metadata := none, rest := [("k", "v")] }) true).written ≠ none := by
  decide

/-- C4 amended: when the document read from `from` parses successfully but
has no `metadata` section, `moveFile` writes the document back to `from`
unchanged (rather than performing no write), and the call still succeeds. -/
theorem moveFile_writes_doc_unchanged_without_metadata (dir f t : String)
    (mats : List Material) (rest : List (String × String)) (writeOk : Bool) :
    moveFileE dir f t mats (Except.ok { metadata := none, rest := rest }) writeOk
      = Except.ok
          { materials := mats.map (updateMaterial dir f (newEditorPathOf dir t))
            written :=
              if writeOk then
                some { path := f, doc := { metadata := none, rest := rest },
                       spaces := "\t", encoding := "utf-8" }
              else none } := by
  cases writeOk <;> simp [moveFileE, diskPatchBody, patchDoc]

/-- C6 counterexample: `newEditorPath` is computed by removing the first
occurrence of the joined assets root anywhere in `to`, not by making `to`
relative to the root. With root `/a` and `to = /b/a/c` the code produces
`/bc`; any genuine root-relative form `r` of `to` satisfies
`join(root, r) = normalize(to)`, and `/bc` does not. -/
theorem newEditorPath_not_root_relative_form :
    newEditorPathOf "/a" "/b/a/c" = "/bc" ∧
      pathJoin "/a" (newEditorPathOf "/a" "/b/a/c") ≠ normalizePath "/b/a/c" := by
  decide

/-- C6 amended: when `to` consists of the joined assets root followed by a
remainder `rel` (i.e. the root plus separator is a prefix of `to`),
`newEditorPath` equals `rel`, the asset-root-relative form of `to`; for
other destinations the code merely removes the first occurrence of the
joined root anywhere in `to`. -/
theorem newEditorPath_strips_root_under_root (dir rel : String) :
    newEditorPathOf dir (pathJoin dir "/" ++ rel) = rel :=
  newEditorPathOf_append dir rel

/-- C7: when the document at `from` is read successfully and has a
`metadata` section, `moveFile` sets `metadata.editorPath` to `newEditorPath`
and writes the document back to the OLD path `from` (not to `to`), with tab
indentation and utf-8 encoding; the other fields of the document and of its
`metadata` section are preserved. -/
theorem moveFile_patches_doc_to_old_path (dir f t : String) (mats : List Material)
    (doc : DiskDoc) (m : MatMetadata) (hm : doc.metadata = some m) :
    (moveFile dir f t mats (Except.ok doc) true).written =
      some { path := f
             doc := { metadata := some { editorPath := some (newEditorPathOf dir t)
                                         rest := m.rest }
                      rest := doc.rest }
             spaces := "\t", encoding := "utf-8" } := by
  rcases doc with ⟨md, drest⟩
  simp only at hm
  subst hm
  simp [moveFile, diskPatchBody, patchDoc]

/-- C7 witness: a concrete document with a `metadata` section is patched and
written back to `from = /a/o`, which differs from `to = /a/n`; unrelated
fields survive. -/
theorem moveFile_patches_doc_to_old_path_witness :
    (moveFile "/a" "/a/o" "/a/n" []
        (Except.ok { metadata := some { editorPath := some "o", rest := [("k", "v")] }
                     rest := [("r", "s")] }) true).written =
      some { path := "/a/o"
             doc := { metadata := some { editorPath := some (newEditorPathOf "/a" "/a/n")
                                         rest := [("k", "v")] }
                      rest := [("r", "s")] }
             spaces := "\t", encoding := "utf-8" } :=
  moveFile_patches_doc_to_old_path "/a" "/a/o" "/a/n" []
    { metadata := some { editorPath := some "o", rest := [("k", "v")] }, rest := [("r", "s")] }
    { editorPath := some "o", rest := [("k", "v")] } rfl

/-- C10 counterexample: with assets root `/a` and destination `/b/a/c`,
which does not start with `/a/`, the stored path is NOT the absolute string
`/b/a/c` itself: the code removes the first occurrence of `/a/` anywhere in
`to` and stores the mangled `/bc`, both in the matching reference and in the
patched document. -/
theorem moveFile_mangles_nonprefixed_destination :
    (¬ (pathJoin "/a" "/").data <+: ("/b/a/c" : String).data) ∧
      (moveFile "/a" "/a/o" "/b/a/c"
          [{ metadata := some { editorPath := some "o", rest := [] } }]
          (Except.ok { metadata := some { editorPath := some "o", rest := [] }, rest := [] })
          true).materials
        = [{ metadata := some { editorPath := some "/bc", rest := [] } }] ∧
      (moveFile "/a" "/a/o" "/b/a/c"
          [{ metadata := some { editorPath := some "o", rest := [] } }]
          (Except.ok { metadata := some { editorPath := some "o", rest := [] }, rest := [] })
          true).written
        = some { path := "/a/o"
                 doc := { metadata := some { editorPath := some "/bc", rest := [] }, rest := [] }
                 spaces := "\t", encoding := "utf-8" } ∧
      ("/bc" : String) ≠ "/b/a/c" := by
  decide

/-- C10 amended: the stored path is `to` with the first occurrence of the
joined assets root removed; `to` itself is stored unmodified exactly when
the joined root occurs nowhere in `to` (not merely when it is not a
prefix). -/
theorem newEditorPath_unchanged_without_occurrence (dir t : String)
    (h : ¬ (pathJoin dir "/").data <:+: t.data) :
    newEditorPathOf dir t = t := by
  rcases t with ⟨l⟩
  rcases hp : pathJoin dir "/" with ⟨pl⟩
  rw [hp] at h
  show jsReplaceOnce _ _ = _
  rw [hp]
  show String.mk (replaceFirstChars pl l) = String.mk l
  rw [replaceFirstChars_of_no_occurrence pl l h]

/-- C10 amended witness: `/a/` occurs nowhere in `/b/c`, so the destination
is stored unmodified. -/
theorem newEditorPath_unchanged_without_occurrence_witness :
    newEditorPathOf "/a" "/b/c" = "/b/c" :=
  newEditorPath_unchanged_without_occurrence "/a" "/b/c" (by decide)

/-- The `forEach` body is idempotent on a single material: re-applying it
with the same `from` and new path leaves the already-updated material
unchanged. -/
theorem updateMaterial_idem (dir f p : String) (m : Material) :
    updateMaterial dir f p (updateMaterial dir f p m) = updateMaterial dir f p m := by
  rcases m with ⟨md⟩
  rcases md with _ | ⟨ep, rest⟩
  · rfl
  · rcases ep with _ | ep
    · rfl
    · by_cases h1 : ep = ""
      · simp [updateMaterial, h1]
      · by_cases h2 : pathJoin dir ep = f
        · by_cases h3 : p = ""
          · simp [updateMaterial, h1, h2, h3]
          · by_cases h4 : pathJoin dir p = f <;>
              simp [updateMaterial, h1, h2, h3, h4]
        · simp [updateMaterial, h1, h2]

/-- Patching the on-disk document twice with the same new path equals
patching it once. -/
theorem patchDoc_idem (p : String) (d : DiskDoc) :
    patchDoc p (patchDoc p d) = patchDoc p d := by
  rcases d with ⟨md, rest⟩
  rcases md with _ | m <;> simp [patchDoc]

/-- C5 counterexample: the second invocation's scan can match references
again. With assets root `/a`, `from = /a/x` and the non-normalized
destination `to = /a//x`, the first call rewrites a matching reference's
`editorPath` to `/x`, and `join("/a", "/x") = "/a/x" = from`, so the second
call's scan matches that reference again — not zero references. -/
theorem moveFile_second_scan_can_match_again :
    ((runMove "/a" "/a/x" "/a//x"
          { materials := [{ metadata := some { editorPath := some "x", rest := [] } }]
            disk := none }).materials.filter (matchesFrom "/a" "/a/x")).length ≠ 0 := by
  decide

/-- C5 amended: invoking `moveFile` twice with the same `(from, to)` leaves
the in-memory collection and the on-disk document identical to invoking it
once; the second call's scan may match already-updated references again
(when the updated `editorPath` still resolves to `from`), but it rewrites
them to the same value, so the state does not change. -/
theorem runMove_idempotent (dir f t : String) (s : SysState) :
    runMove dir f t (runMove dir f t s) = runMove dir f t s := by
  rcases s with ⟨mats, disk⟩
  have hu :
      updateMaterial dir f (newEditorPathOf dir t)
          ∘ updateMaterial dir f (newEditorPathOf dir t)
        = updateMaterial dir f (newEditorPathOf dir t) :=
    funext (updateMaterial_idem dir f (newEditorPathOf dir t))
  cases disk with
  | none => simp [runMove, moveFile, diskPatchBody, List.map_map, hu]
  | some d => simp [runMove, moveFile, diskPatchBody, List.map_map, hu, patchDoc_idem]

/-- From any configuration past the entry point, a step leaves the material
list untouched and never returns to the entry point. -/
theorem moveStep_materials_const (dir f t : String) (read : Except String DiskDoc)
    (writeOk : Bool) (s : ExecState) (h : s.pc ≠ PC.entry) :
    (moveStep dir f t read writeOk s).materials = s.materials ∧
      (moveStep dir f t read writeOk s).pc ≠ PC.entry := by
  rcases s with ⟨pc, mats, json, written⟩
  cases pc with
  | entry => exact absurd rfl h
  | beforeRead =>
    cases read with
    | error e => simp [moveStep]
    | ok doc => simp [moveStep]
  | afterRead =>
    cases json with
    | none => simp [moveStep]
    | some doc => cases writeOk <;> simp [moveStep]
  | done => simp [moveStep]

/-- Iterating the step function from any configuration past the entry point
never changes the material list. -/
theorem moveStep_iterate_materials_const (dir f t : String) (read : Except String DiskDoc)
    (writeOk : Bool) :
    ∀ (m : Nat) (s : ExecState), s.pc ≠ PC.entry →
      ((moveStep dir f t read writeOk)^[m] s).materials = s.materials
  | 0, _, _ => rfl
  | m + 1, s, h => by
    rw [Function.iterate_succ_apply]
    rcases moveStep_materials_const dir f t read writeOk s h with ⟨h1, h2⟩
    rw [moveStep_iterate_materials_const dir f t read writeOk m _ h2, h1]

/-- C8: the in-memory mutation completes synchronously before the
asynchronous disk patch begins. In the statement-level execution of
`moveFile`, the read of the document at `from` is issued only from the
`beforeRead` point, which is reached after exactly one step; at that step
and at every later one the material list already equals its fully updated
value. -/
theorem memory_update_precedes_disk_read (dir f t : String) (mats : List Material)
    (read : Except String DiskDoc) (writeOk : Bool) (n : Nat) (hn : 1 ≤ n) :
    ((moveStep dir f t read writeOk)^[n]
        { pc := PC.entry, materials := mats, json := none, written := none }).materials
      = mats.map (updateMaterial dir f (newEditorPathOf dir t)) ∧
    (moveStep dir f t read writeOk
        { pc := PC.entry, materials := mats, json := none, written := none }).pc
      = PC.beforeRead := by
  constructor
  · obtain ⟨m, rfl⟩ : ∃ m, n = m + 1 := ⟨n - 1, by omega⟩
    rw [Function.iterate_succ_apply]
    have hstep :
        moveStep dir f t read writeOk
            { pc := PC.entry, materials := mats, json := none, written := none }
          = { pc := PC.beforeRead
              materials := mats.map (updateMaterial dir f (newEditorPathOf dir t))
              json := none, written := none } := by
      simp [moveStep]
    rw [hstep, moveStep_iterate_materials_const dir f t read writeOk m _ (by simp)]
  · simp [moveStep]

/-- C8 witness: one step from the entry point with a concrete material list
lands at the read point with the list already rewritten. -/
theorem memory_update_precedes_disk_read_witness :
    ((moveStep "/a" "/a/o" "/a/n" (Except.error "e") true)^[1]
        { pc := PC.entry
          materials := [{ metadata := some { editorPath := some "o", rest := [] } }]
          json := none, written := none }).materials
      = [{ metadata := some { editorPath := some "o", rest := [] } }].map
          (updateMaterial "/a" "/a/o" (newEditorPathOf "/a" "/a/n")) ∧
    (moveStep "/a" "/a/o" "/a/n" (Except.error "e") true
        { pc := PC.entry
          materials := [{ metadata := some { editorPath := some "o", rest := [] } }]
          json := none, written := none }).pc
      = PC.beforeRead :=
  memory_update_precedes_disk_read "/a" "/a/o" "/a/n"
    [{ metadata := some { editorPath := some "o", rest := [] } }]
    (Except.error "e") true 1 (by decide)
